import Mathlib

/-!
Shallow embedding of the TIS-100 assembly parser from `src/main.rs`.

Lines and tokens are modelled as `List Char` (Rust `&str` slices; only the
character sequence matters for the parser's behaviour, since the single-byte
patterns searched for always fall on character boundaries).  Fallible Rust
functions returning `Result<T, String>` become `Except Str T`.  The `print!`
debugging statement inside `parse_spec` has no influence on the returned
value and is omitted.  Machine integers (`i16`, `u8`, `usize`) are modelled
as `Int`/`Nat` with explicit range checks where the Rust code performs them.
-/

set_option maxHeartbeats 1000000

abbrev Str := List Char

/-- The set of Unicode white-space code points, as used by Rust's
`str::split_whitespace` (`char::is_whitespace`). -/
def isWhitespace (c : Char) : Bool :=
  c.toNat = 0x09 || c.toNat = 0x0A || c.toNat = 0x0B || c.toNat = 0x0C ||
  c.toNat = 0x0D || c.toNat = 0x20 || c.toNat = 0x85 || c.toNat = 0xA0 ||
  c.toNat = 0x1680 || (0x2000 ≤ c.toNat && c.toNat ≤ 0x200A) ||
  c.toNat = 0x2028 || c.toNat = 0x2029 || c.toNat = 0x202F ||
  c.toNat = 0x205F || c.toNat = 0x3000

def isAsciiDigit (c : Char) : Bool :=
  48 ≤ c.toNat && c.toNat ≤ 57

/-- Value of a string of ASCII digits, most significant first. -/
def digitsVal (l : Str) : Nat :=
  l.foldl (fun a c => a * 10 + (c.toNat - 48)) 0

/-- Fuel-based decimal printer for naturals (digits of `n`, most significant
first; empty for `n = 0`). -/
def natToStrAux : Nat → Nat → Str
  | 0, _ => []
  | fuel + 1, n =>
    if n = 0 then []
    else natToStrAux fuel (n / 10) ++ [Char.ofNat (n % 10 + 48)]

/-- Decimal representation of a natural number, as produced by Rust's
`format!` for unsigned integers. -/
def natToStr (n : Nat) : Str :=
  if n = 0 then "0".toList else natToStrAux (n + 1) n

/-- Decimal representation of an integer (`-` sign for negatives). -/
def intToStr (n : Int) : Str :=
  if n < 0 then '-' :: natToStr n.natAbs else natToStr n.toNat

/-- Optional leading sign of a numeric string, as treated by Rust's
`from_str` for signed integers: the boolean is `true` for a `-` sign and
the second component is the remaining (digit) part. -/
def splitSign (s : Str) : Bool × Str :=
  match s with
  | [] => (false, [])
  | c :: rest =>
    if c = '+' then (false, rest)
    else if c = '-' then (true, rest)
    else (false, c :: rest)

/-- Semantics of Rust's `str::parse::<iN>` with inclusive bounds `lo`/`hi`:
optional sign, at least one ASCII digit, value within the bounds.  Error
messages are those of `core::num::ParseIntError`'s `Display`. -/
def parse_int_range (lo hi : Int) (s : Str) : Except Str Int :=
  match s with
  | [] => .error "cannot parse integer from empty string".toList
  | _ :: _ =>
    let neg := (splitSign s).1
    let ds := (splitSign s).2
    if ds = [] then .error "invalid digit found in string".toList
    else if ds.all isAsciiDigit then
      let v : Int := if neg then -(digitsVal ds : Int) else (digitsVal ds : Int)
      if v < lo then .error "number too small to fit in target type".toList
      else if hi < v then .error "number too large to fit in target type".toList
      else .ok v
    else .error "invalid digit found in string".toList

/-- Semantics of Rust's `str::parse::<u8>`: optional `+` sign (a `-` is an
invalid digit), at least one ASCII digit, value at most 255. -/
def parse_u8 (s : Str) : Except Str Nat :=
  match s with
  | [] => .error "cannot parse integer from empty string".toList
  | c :: rest =>
    let ds := if c = '+' then rest else c :: rest
    if ds = [] then .error "invalid digit found in string".toList
    else if ds.all isAsciiDigit then
      if 255 < digitsVal ds then .error "number too large to fit in target type".toList
      else .ok (digitsVal ds)
    else .error "invalid digit found in string".toList

inductive Loc
  | left
  | right
  | up
  | down
  | acc
  | last
  deriving DecidableEq

inductive Source
  | val (n : Int)
  | loc (l : Loc)
  deriving DecidableEq

inductive Instr
  | nop
  | mov (src : Source) (dst : Loc)
  | swp
  | sav
  | add (s : Source)
  | sub (s : Source)
  | neg
  | jmp (label : Str)
  | jez (label : Str)
  | jnz (label : Str)
  | jgz (label : Str)
  | jlz (label : Str)
  | jro (s : Source)
  | comment (text : Str)
  | emptyline
  deriving DecidableEq

structure InstrAndPos where
  instr : Instr
  pos : Nat
  deriving DecidableEq

/-- The Rust `HashMap<&str, usize>` label table, modelled as an association
list (the parser errors out before ever inserting a duplicate key, so the
two representations agree on every reachable state). -/
abbrev LabelMap := List (Str × Nat)

structure Program where
  instrs : List InstrAndPos
  labels : LabelMap
  deriving DecidableEq

structure Spec where
  programs : List Program
  deriving DecidableEq

/-- `parse_loc` from `src/main.rs`. -/
def parse_loc (s : Str) : Except Str Loc :=
  if s = "LEFT".toList then .ok .left
  else if s = "RIGHT".toList then .ok .right
  else if s = "UP".toList then .ok .up
  else if s = "DOWN".toList then .ok .down
  else if s = "ACC".toList then .ok .acc
  else if s = "LAST".toList then .ok .last
  else .error ("Invalid loc ".toList ++ s)

/-- `parse_lit` from `src/main.rs`: `s.parse::<i16>()`. -/
def parse_lit (s : Str) : Except Str Int :=
  parse_int_range (-32768) 32767 s

/-- `parse_source` from `src/main.rs`. -/
def parse_source (s : Str) : Except Str Source :=
  match parse_loc s with
  | .ok l => .ok (.loc l)
  | .error _ => (parse_lit s).map .val

/-- `eat_comma` from `src/main.rs`: `s.ends_with(",")` and `&s[..s.len()-1]`. -/
def eat_comma (s : Str) : Except Str Str :=
  if s.getLast? = some ',' then .ok s.dropLast
  else .error "invalid mov instruction with no comma".toList

/-- `parse_mov` from `src/main.rs`.  The `SplitWhitespace` iterator is
modelled as the list of remaining tokens. -/
def parse_mov (words : List Str) : Except Str Instr :=
  match words with
  | [] => .error "invalid mov instruction without source".toList
  | w :: rest =>
    match eat_comma w with
    | .error e => .error e
    | .ok w2 =>
      match parse_source w2 with
      | .error e => .error e
      | .ok src =>
        match rest with
        | [] => .error "invalid mov instruction without dest".toList
        | d :: _ =>
          match parse_loc d with
          | .error e => .error e
          | .ok dst => .ok (.mov src dst)

/-- `str::split_whitespace`, accumulator-based: `acc` holds the current
token reversed. -/
def splitWsAux : Str → Str → List Str
  | [], acc => if acc = [] then [] else [acc.reverse]
  | c :: rest, acc =>
    if isWhitespace c then
      if acc = [] then splitWsAux rest []
      else acc.reverse :: splitWsAux rest []
    else splitWsAux rest (c :: acc)

def splitWs (s : Str) : List Str :=
  splitWsAux s []

/-- `parse_line` from `src/main.rs`. -/
def parse_line (line : Str) : Except Str Instr :=
  match splitWs line with
  | [] => .ok .emptyline
  | w :: rest =>
    if w = "NOP".toList then .ok .nop
    else if w = "MOV".toList then parse_mov rest
    else if w = "SWP".toList then .ok .swp
    else if w = "SAV".toList then .ok .sav
    else if w = "ADD".toList then
      match rest with
      | [] => .error "invalid add instr without source".toList
      | t :: _ => (parse_source t).map .add
    else if w = "SUB".toList then
      match rest with
      | [] => .error "invalid sub instr without source".toList
      | t :: _ => (parse_source t).map .sub
    else if w = "NEG".toList then .ok .neg
    else if w = "JMP".toList then
      match rest with
      | [] => .error "invalid jmp instr without label".toList
      | t :: _ => .ok (.jmp t)
    else if w = "JEZ".toList then
      match rest with
      | [] => .error "invalid jez instr without label".toList
      | t :: _ => .ok (.jez t)
    else if w = "JNZ".toList then
      match rest with
      | [] => .error "invalid jnz instr without label".toList
      | t :: _ => .ok (.jnz t)
    else if w = "JGZ".toList then
      match rest with
      | [] => .error "invalid jgz instr without label".toList
      | t :: _ => .ok (.jgz t)
    else if w = "JLZ".toList then
      match rest with
      | [] => .error "invalid jlz instr without label".toList
      | t :: _ => .ok (.jlz t)
    else if w = "JRO".toList then
      match rest with
      | [] => .error "invalid jro instr without source".toList
      | t :: _ => (parse_source t).map .jro
    else if w.head? = some '#' then
      .ok (.comment (rest.foldl (fun acc t => acc ++ ' ' :: t) w))
    else .error ("invalid instr \x27".toList ++ w ++ "\x27".toList)

/-- First index of a `:` character, modelling `line.find(":")` (for a
single-character pattern the byte index of the match identifies the same
prefix/suffix split as the character index). -/
def findColon : Str → Option Nat
  | [] => none
  | c :: rest => if c = ':' then some 0 else (findColon rest).map (· + 1)

/-- `get_label` from `src/main.rs`. -/
def get_label (line : Str) : Str × Option Str :=
  match findColon line with
  | some i =>
    if (line.take i).any (· == ' ') then (line, none)
    else (line.drop (i + 1), some (line.take i))
  | none => (line, none)

def labelsLookup (m : LabelMap) (k : Str) : Option Nat :=
  (m.find? (fun e => e.1 == k)).map (·.2)

def dupLabelMsg (lab : Str) : Str :=
  "label \x27".toList ++ lab ++ "\x27 already exists".toList

/-- The label-registration step of `parse_program`: `labels.insert(label,
instrs.len())` with a duplicate check. -/
def registerLabel (labels : LabelMap) (lab? : Option Str) (len : Nat) :
    Except Str LabelMap :=
  match lab? with
  | none => .ok labels
  | some lab =>
    if labelsLookup labels lab ≠ none then .error (dupLabelMsg lab)
    else .ok (labels ++ [(lab, len)])

/-- Comment and blank-line results are skipped by `parse_program`
(`Instr::Comment(_) | Instr::Emptyline => continue`). -/
def isStructural : Instr → Bool
  | .comment _ => true
  | .emptyline => true
  | _ => false

/-- The loop body of `parse_program`, with the `enumerate` counter `n` and
the two accumulators made explicit. -/
def parse_program_aux : Nat → List InstrAndPos → LabelMap → List Str →
    Except Str Program
  | _, instrs, labels, [] => .ok { instrs := instrs, labels := labels }
  | n, instrs, labels, rawLine :: rest =>
    match registerLabel labels (get_label rawLine).2 instrs.length with
    | .error e => .error e
    | .ok labels2 =>
      match parse_line (get_label rawLine).1 with
      | .error e => .error e
      | .ok instr =>
        if isStructural instr then
          parse_program_aux (n + 1) instrs labels2 rest
        else
          parse_program_aux (n + 1) (instrs ++ [{ instr := instr, pos := n }])
            labels2 rest

/-- `parse_program` from `src/main.rs`. -/
def parse_program (buf : List Str) : Except Str Program :=
  parse_program_aux 0 [] [] buf

def expectingSectionMsg (expected found : Nat) : Str :=
  "expecting section ".toList ++ natToStr expected ++
    ", found section ".toList ++ natToStr found

def sectionTooBigMsg (sec : Nat) : Str :=
  "section ".toList ++ natToStr sec ++ " greater than maximum 11".toList

def headerMsg (first : Str) : Str :=
  "invalid spec header ".toList ++ first ++ ", expecting @0".toList

/-- The section-collecting loop of `parse_spec`, with the loop state
(`next_section`, `raw_program`, `raw_programs`) made explicit.  Note that
at end of input the pending `raw_program` buffer is NOT appended to the
result, exactly as in the Rust source. -/
def parse_spec_loop : Nat → List Str → List (List Str) → List Str →
    Except Str (List (List Str))
  | _, _, raw_programs, [] => .ok raw_programs
  | next_section, raw_program, raw_programs, line :: rest =>
    if line.head? = some '@' then
      match parse_u8 line.tail with
      | .error e => .error e
      | .ok sec =>
        if sec ≠ next_section then .error (expectingSectionMsg next_section sec)
        else if 11 < sec then .error (sectionTooBigMsg sec)
        else
          match raw_program.getLast? with
          | none => .error "invalid empty section".toList
          | some lastLine =>
            if lastLine ≠ [] then
              .error "invalid section: didn\x27t end with an empty line".toList
            else
              parse_spec_loop (next_section + 1) []
                (raw_programs ++ [raw_program.dropLast]) rest
    else
      parse_spec_loop next_section (raw_program ++ [line]) raw_programs rest

/-- The final loop of `parse_spec`: each raw section body through
`parse_program`, stopping at the first error. -/
def parse_programs : List (List Str) → Except Str (List Program)
  | [] => .ok []
  | b :: bs =>
    match parse_program b with
    | .error e => .error e
    | .ok p =>
      match parse_programs bs with
      | .error e => .error e
      | .ok ps => .ok (p :: ps)

/-- `parse_spec` from `src/main.rs`.  The input is the document's list of
lines (Rust `Lines`). -/
def parse_spec (buf : List Str) : Except Str Spec :=
  match buf with
  | [] => .error "invalid empty spec".toList
  | first :: rest =>
    if first = "@0".toList then
      match parse_spec_loop 1 [] [] rest with
      | .error e => .error e
      | .ok raw_programs =>
        match parse_programs raw_programs with
        | .error e => .error e
        | .ok programs => .ok { programs := programs }
    else .error (headerMsg first)

/-- Executable meaning of "string `s` denotes the integer `n`": an optional
sign followed by at least one ASCII digit, with signed value `n` (no range
restriction).  Used to state the numeric-literal claims. -/
def strDenotesInt (s : Str) (n : Int) : Prop :=
  s ≠ [] ∧ (splitSign s).2 ≠ [] ∧ (∀ c ∈ (splitSign s).2, isAsciiDigit c = true) ∧
    (if (splitSign s).1 then -(digitsVal (splitSign s).2 : Int)
     else (digitsVal (splitSign s).2 : Int)) = n

instance (s : Str) (n : Int) : Decidable (strDenotesInt s n) := by
  unfold strDenotesInt; infer_instance

/-! ## Arithmetic facts about the decimal printer and numeric parsing -/

theorem digitChar_toNat {r : Nat} (h : r < 10) :
    (Char.ofNat (r + 48)).toNat = r + 48 := by
  interval_cases r <;> decide

theorem digitChar_isAsciiDigit {r : Nat} (h : r < 10) :
    isAsciiDigit (Char.ofNat (r + 48)) = true := by
  interval_cases r <;> decide

theorem natToStrAux_digits (fuel : Nat) : ∀ n, ∀ c ∈ natToStrAux fuel n,
    isAsciiDigit c = true := by
  induction fuel with
  | zero => intro n c hc; simp [natToStrAux] at hc
  | succ fuel ih =>
    intro n c hc
    by_cases hn : n = 0
    · simp [natToStrAux, hn] at hc
    · simp only [natToStrAux, if_neg hn, List.mem_append, List.mem_singleton] at hc
      rcases hc with hc | hc
      · exact ih _ c hc
      · subst hc; exact digitChar_isAsciiDigit (Nat.mod_lt _ (by omega))

theorem natToStrAux_ne_nil (fuel n : Nat) (hn : n ≠ 0) :
    natToStrAux (fuel + 1) n ≠ [] := by
  simp [natToStrAux, hn]

theorem natToStrAux_val (fuel : Nat) : ∀ n, n ≤ fuel → ∀ acc : Nat,
    (natToStrAux fuel n).foldl (fun a c => a * 10 + (c.toNat - 48)) acc =
      acc * 10 ^ (natToStrAux fuel n).length + n := by
  induction fuel with
  | zero =>
    intro n hn acc
    have : n = 0 := Nat.le_zero.mp hn
    subst this; simp [natToStrAux]
  | succ fuel ih =>
    intro n hn acc
    by_cases h0 : n = 0
    · subst h0; simp [natToStrAux]
    · have hdiv : n / 10 ≤ fuel := by
        have : n / 10 < n := Nat.div_lt_self (by omega) (by omega)
        omega
      have hmod : n % 10 < 10 := Nat.mod_lt _ (by omega)
      simp only [natToStrAux, if_neg h0, List.foldl_append, List.foldl_cons,
        List.foldl_nil, List.length_append, List.length_cons, List.length_nil]
      rw [ih _ hdiv acc, digitChar_toNat hmod]
      have hdm := Nat.div_add_mod n 10
      generalize (natToStrAux fuel (n / 10)).length = k
      have hp : (10 : Nat) ^ (k + (0 + 1)) = 10 ^ k * 10 := by ring
      rw [hp, ← mul_assoc]
      generalize acc * 10 ^ k = M
      omega

theorem natToStr_digits (n : Nat) : ∀ c ∈ natToStr n, isAsciiDigit c = true := by
  intro c hc
  by_cases h0 : n = 0
  · simp [natToStr, h0] at hc; subst hc; decide
  · simp only [natToStr, if_neg h0] at hc
    exact natToStrAux_digits _ _ c hc

theorem natToStr_ne_nil (n : Nat) : natToStr n ≠ [] := by
  by_cases h0 : n = 0
  · simp [natToStr, h0]
  · simp only [natToStr, if_neg h0]
    exact natToStrAux_ne_nil n n h0

theorem natToStr_val (n : Nat) : digitsVal (natToStr n) = n := by
  by_cases h0 : n = 0
  · simp [natToStr, h0, digitsVal]
  · simp only [natToStr, if_neg h0, digitsVal]
    rw [natToStrAux_val (n + 1) n (by omega) 0]
    simp

theorem splitSign_of_digits (s : Str) (hne : s ≠ [])
    (hd : ∀ c ∈ s, isAsciiDigit c = true) : splitSign s = (false, s) := by
  cases s with
  | nil => exact absurd rfl hne
  | cons c cs =>
    have hc : isAsciiDigit c = true := hd c (by simp)
    have hplus : c ≠ '+' := by rintro rfl; simp [isAsciiDigit] at hc
    have hminus : c ≠ '-' := by rintro rfl; simp [isAsciiDigit] at hc
    simp [splitSign, hplus, hminus]

theorem parse_int_range_ok (lo hi v : Int) (s : Str) (hne : s ≠ [])
    (hds : (splitSign s).2 ≠ [])
    (hdig : ∀ c ∈ (splitSign s).2, isAsciiDigit c = true)
    (hv : (if (splitSign s).1 = true then -(digitsVal (splitSign s).2 : Int)
           else (digitsVal (splitSign s).2 : Int)) = v)
    (hlo : lo ≤ v) (hhi : v ≤ hi) :
    parse_int_range lo hi s = .ok v := by
  cases s with
  | nil => exact absurd rfl hne
  | cons c cs =>
    simp only [parse_int_range]
    rw [if_neg hds, if_pos (List.all_eq_true.mpr hdig), hv,
      if_neg (by omega : ¬ v < lo), if_neg (by omega : ¬ hi < v)]

theorem parse_lit_intToStr (n : Int) (hlo : -32768 ≤ n) (hhi : n ≤ 32767) :
    parse_lit (intToStr n) = .ok n := by
  unfold parse_lit
  by_cases hneg : n < 0
  · have hs : intToStr n = '-' :: natToStr n.natAbs := by simp [intToStr, hneg]
    rw [hs]
    have hsplit : splitSign ('-' :: natToStr n.natAbs) = (true, natToStr n.natAbs) := by
      simp [splitSign]
    apply parse_int_range_ok
    · simp
    · rw [hsplit]; exact natToStr_ne_nil _
    · rw [hsplit]; exact natToStr_digits _
    · rw [hsplit]; simp [natToStr_val, abs_of_neg hneg]
    · omega
    · omega
  · have hs : intToStr n = natToStr n.toNat := by simp [intToStr, hneg]
    rw [hs]
    have hsplit := splitSign_of_digits (natToStr n.toNat) (natToStr_ne_nil _)
      (natToStr_digits _)
    apply parse_int_range_ok
    · exact natToStr_ne_nil _
    · rw [hsplit]; exact natToStr_ne_nil _
    · rw [hsplit]; exact natToStr_digits _
    · rw [hsplit]; simp [natToStr_val]; omega
    · omega
    · omega

theorem parse_int_range_err_of_denotes (lo hi : Int) (s : Str) (n : Int)
    (hden : strDenotesInt s n) (hout : n < lo ∨ hi < n) :
    ∃ e, parse_int_range lo hi s = .error e := by
  obtain ⟨hne, hds, hdig, hval⟩ := hden
  cases s with
  | nil => exact absurd rfl hne
  | cons c cs =>
    simp only [parse_int_range]
    rw [if_neg hds, if_pos (List.all_eq_true.mpr hdig), hval]
    rcases hout with hout | hout
    · rw [if_pos hout]; exact ⟨_, rfl⟩
    · by_cases hlo : n < lo
      · rw [if_pos hlo]; exact ⟨_, rfl⟩
      · rw [if_neg hlo, if_pos hout]; exact ⟨_, rfl⟩

theorem parse_int_range_err_of_nonnumeric (lo hi : Int) (s : Str)
    (hno : ∀ n, ¬ strDenotesInt s n) :
    ∃ e, parse_int_range lo hi s = .error e := by
  cases s with
  | nil => exact ⟨_, rfl⟩
  | cons c cs =>
    by_cases hds : (splitSign (c :: cs)).2 = []
    · refine ⟨"invalid digit found in string".toList, ?_⟩
      simp only [parse_int_range]
      rw [if_pos hds]
    · by_cases hall : ((splitSign (c :: cs)).2.all isAsciiDigit) = true
      · exact absurd ⟨List.cons_ne_nil c cs, hds, List.all_eq_true.mp hall, rfl⟩
          (hno _)
      · refine ⟨"invalid digit found in string".toList, ?_⟩
        simp only [parse_int_range]
        rw [if_neg hds, if_neg hall]

/-- Claim C7: for every integer `n` in the signed 16-bit range, `parse_lit`
applied to `n`'s decimal string representation returns `n`; for `"32768"`,
for any string denoting an integer outside the signed 16-bit range, and for
any non-numeric string, `parse_lit` returns an error (never a truncated,
saturated or defaulted value). -/
theorem C7_parse_lit_roundtrip_and_errors :
    (∀ n : Int, -32768 ≤ n → n ≤ 32767 → parse_lit (intToStr n) = .ok n) ∧
    (∃ e, parse_lit "32768".toList = .error e) ∧
    (∀ (s : Str) (n : Int), strDenotesInt s n → (n < -32768 ∨ 32767 < n) →
      ∃ e, parse_lit s = .error e) ∧
    (∀ s : Str, (∀ n : Int, ¬ strDenotesInt s n) → ∃ e, parse_lit s = .error e) := by
  refine ⟨parse_lit_intToStr, ⟨_, rfl⟩, ?_, ?_⟩
  · intro s n hden hout
    exact parse_int_range_err_of_denotes _ _ s n hden hout
  · intro s hno
    exact parse_int_range_err_of_nonnumeric _ _ s hno

/-- Witness for C7 at concrete inputs. -/
theorem C7_witness :
    parse_lit (intToStr (-32768)) = .ok (-32768) ∧
    (∃ e, parse_lit "40000".toList = .error e) ∧
    (∃ e, parse_lit "abc".toList = .error e) := by
  refine ⟨C7_parse_lit_roundtrip_and_errors.1 (-32768) (by norm_num) (by norm_num),
    C7_parse_lit_roundtrip_and_errors.2.2.1 "40000".toList 40000 (by decide)
      (by norm_num),
    C7_parse_lit_roundtrip_and_errors.2.2.2 "abc".toList ?_⟩
  rintro n ⟨-, -, hdig, -⟩
  exact absurd (hdig 'a' (by decide)) (by decide)

/-! ## The label extractor -/

theorem findColon_none (l : Str) (h : findColon l = none) :
    (l.any fun c => c == ':') = false := by
  induction l with
  | nil => rfl
  | cons c cs ih =>
    by_cases hc : c = ':'
    · simp [findColon, hc] at h
    · simp only [findColon, if_neg hc] at h
      cases hfc : findColon cs with
      | none => simp [List.any_cons, hc, ih hfc]
      | some j => rw [hfc] at h; simp at h

theorem findColon_some (l : Str) : ∀ i, findColon l = some i →
    (l.any fun c => c == ':') = true ∧
    l.take i = (l.takeWhile fun c => !(c == ':')) ∧
    l.drop (i + 1) = (l.dropWhile fun c => !(c == ':')).tail := by
  induction l with
  | nil => intro i h; simp [findColon] at h
  | cons c cs ih =>
    intro i h
    by_cases hc : c = ':'
    · rw [findColon, if_pos hc] at h
      injection h with h2
      subst h2
      subst hc
      refine ⟨by simp, by simp [List.takeWhile_cons], by simp [List.dropWhile_cons]⟩
    · rw [findColon, if_neg hc] at h
      cases hfc : findColon cs with
      | none => rw [hfc] at h; simp at h
      | some j =>
        rw [hfc] at h
        simp only [Option.map_some'] at h
        injection h with h2
        subst h2
        obtain ⟨hany, htake, hdrop⟩ := ih j hfc
        refine ⟨by simp [List.any_cons, hany], ?_, ?_⟩
        · simp [List.take_succ_cons, List.takeWhile_cons, hc, htake]
        · simp only [List.drop_succ_cons, List.dropWhile_cons]
          rw [if_pos (by simp [hc])]
          exact hdrop

/-- Claim C3 (amended): `get_label` returns a label exactly when the line
contains a colon and the substring before the first colon contains no SPACE
character `' '` (the source checks only for `' '`, not for general
whitespace); in that case the label is that substring and the text after
the first colon is passed on; otherwise the whole line passes through
unchanged. -/
theorem C3_get_label_space_only (l : Str) :
    get_label l =
      if ((l.any fun c => c == ':') = true ∧
          ((l.takeWhile fun c => !(c == ':')).any fun c => c == ' ') = false) then
        ((l.dropWhile fun c => !(c == ':')).tail,
          some (l.takeWhile fun c => !(c == ':')))
      else (l, none) := by
  cases hfc : findColon l with
  | none =>
    have hany := findColon_none l hfc
    simp only [get_label, hfc]
    rw [if_neg (by simp [hany])]
  | some i =>
    obtain ⟨hany, htake, hdrop⟩ := findColon_some l i hfc
    simp only [get_label, hfc]
    by_cases hsp : ((l.take i).any fun c => c == ' ') = true
    · rw [if_pos hsp]
      rw [htake] at hsp
      rw [if_neg (by simp [hsp])]
    · rw [if_neg hsp]
      rw [htake] at hsp
      have hsp2 : ((l.takeWhile fun c => !(c == ':')).any fun c => c == ' ') = false := by
        cases h2 : ((l.takeWhile fun c => !(c == ':')).any fun c => c == ' ')
        · rfl
        · exact absurd h2 hsp
      rw [if_pos ⟨hany, hsp2⟩]
      rw [htake, hdrop]

/-- Claim C3 counterexample: on the line `"a\t:NOP"` the prefix before the
first colon contains whitespace (a tab), yet `get_label` does return a
label, because the source checks only for the space character.  The claim
as stated (no label when the prefix contains any whitespace) is false. -/
theorem C3_counterexample :
    (get_label "a\t:NOP".toList).2 = some ('a' :: '\t' :: []) ∧
    isWhitespace '\t' = true := by
  exact ⟨rfl, rfl⟩

/-! ## The program assembler -/

theorem labelsLookup_cons (e : Str × Nat) (m : LabelMap) (k : Str) :
    labelsLookup (e :: m) k =
      if (e.1 == k) = true then some e.2 else labelsLookup m k := by
  by_cases h : (e.1 == k) = true
  · simp [labelsLookup, List.find?, h]
  · simp only [Bool.not_eq_true] at h
    simp [labelsLookup, List.find?, h]

theorem labelsLookup_append_left (m1 m2 : LabelMap) (k : Str) (v : Nat)
    (h : labelsLookup m1 k = some v) : labelsLookup (m1 ++ m2) k = some v := by
  induction m1 with
  | nil => simp [labelsLookup] at h
  | cons e m1 ih =>
    rw [labelsLookup_cons] at h
    rw [List.cons_append, labelsLookup_cons]
    by_cases hk : (e.1 == k) = true
    · rw [if_pos hk] at h ⊢; exact h
    · rw [if_neg hk] at h ⊢; exact ih h

theorem labelsLookup_append_right (m : LabelMap) (k : Str) (v : Nat)
    (h : labelsLookup m k = none) : labelsLookup (m ++ [(k, v)]) k = some v := by
  induction m with
  | nil => simp [labelsLookup, List.find?]
  | cons e m ih =>
    rw [labelsLookup_cons] at h
    rw [List.cons_append, labelsLookup_cons]
    by_cases hk : (e.1 == k) = true
    · rw [if_pos hk] at h; simp at h
    · rw [if_neg hk] at h ⊢; exact ih h

theorem registerLabel_ok (labels : LabelMap) (o : Option Str) (len : Nat)
    (labels2 : LabelMap) (h : registerLabel labels o len = .ok labels2) :
    (o = none ∧ labels2 = labels) ∨
    (∃ lab, o = some lab ∧ labelsLookup labels lab = none ∧
      labels2 = labels ++ [(lab, len)]) := by
  cases o with
  | none =>
    simp only [registerLabel] at h
    injection h with h2
    exact .inl ⟨rfl, h2.symm⟩
  | some lab =>
    simp only [registerLabel] at h
    by_cases hdup : labelsLookup labels lab ≠ none
    · rw [if_pos hdup] at h; simp at h
    · rw [if_neg hdup] at h
      injection h with h2
      exact .inr ⟨lab, rfl, not_ne_iff.mp hdup, h2.symm⟩

theorem parse_program_aux_invariant :
    ∀ (ls : List Str) (n : Nat) (instrs : List InstrAndPos) (labels : LabelMap)
      (p : Program),
      parse_program_aux n instrs labels ls = .ok p →
      (∀ iap ∈ instrs, isStructural iap.instr = false) →
      (∀ e ∈ labels, e.2 ≤ instrs.length) →
      (∀ iap ∈ p.instrs, isStructural iap.instr = false) ∧
      (∀ e ∈ p.labels, e.2 ≤ p.instrs.length) := by
  intro ls
  induction ls with
  | nil =>
    intro n instrs labels p h hi hl
    simp only [parse_program_aux] at h
    injection h with h2
    subst h2
    exact ⟨hi, hl⟩
  | cons line rest ih =>
    intro n instrs labels p h hi hl
    simp only [parse_program_aux] at h
    split at h
    next e heq => simp at h
    next labels2 heq =>
      split at h
      next e heq2 => simp at h
      next instr heq2 =>
        have hlab2 : ∀ e ∈ labels2, e.2 ≤ instrs.length := by
          rcases registerLabel_ok _ _ _ _ heq with ⟨-, rfl⟩ | ⟨lab, -, -, rfl⟩
          · exact hl
          · intro e he
            rcases List.mem_append.mp he with he | he
            · exact hl e he
            · simp at he; subst he; simp
        by_cases hs : isStructural instr = true
        · rw [if_pos hs] at h
          exact ih _ _ _ _ h hi hlab2
        · rw [if_neg hs] at h
          refine ih _ _ _ _ h ?_ ?_
          · intro iap hiap
            rcases List.mem_append.mp hiap with hm | hm
            · exact hi iap hm
            · simp at hm; subst hm; simpa using hs
          · intro e he
            have := hlab2 e he
            simp only [List.length_append, List.length_cons, List.length_nil]
            omega

/-- Claim C9: a successfully assembled `Program` contains no `comment` and
no `emptyline` instruction, and every index stored in the label table is at
most the length of the instruction list. -/
theorem C9_program_invariants (buf : List Str) (p : Program)
    (h : parse_program buf = .ok p) :
    (∀ iap ∈ p.instrs, (∀ s, iap.instr ≠ .comment s) ∧ iap.instr ≠ .emptyline) ∧
    (∀ e ∈ p.labels, e.2 ≤ p.instrs.length) := by
  have hmain := parse_program_aux_invariant buf 0 [] [] p h (by simp) (by simp)
  refine ⟨?_, hmain.2⟩
  intro iap hiap
  have hns := hmain.1 iap hiap
  constructor
  · intro s hc; rw [hc] at hns; simp [isStructural] at hns
  · intro hc; rw [hc] at hns; simp [isStructural] at hns

/-- Witness for C9 at a concrete program. -/
theorem C9_witness : ({ instr := Instr.nop, pos := 0 } : InstrAndPos).instr ≠
    Instr.emptyline :=
  ((C9_program_invariants ["NOP".toList, "# x".toList]
    { instrs := [{ instr := Instr.nop, pos := 0 }], labels := [] } rfl).1
    { instr := Instr.nop, pos := 0 } (by simp)).2

theorem parse_program_aux_positions :
    ∀ (ls : List Str) (n : Nat) (instrs : List InstrAndPos) (labels : LabelMap)
      (p : Program),
      parse_program_aux n instrs labels ls = .ok p →
      ∀ iap ∈ p.instrs, iap ∈ instrs ∨
        (n ≤ iap.pos ∧ iap.pos - n < ls.length ∧
          parse_line (get_label (ls.getD (iap.pos - n) [])).1 = .ok iap.instr) := by
  intro ls
  induction ls with
  | nil =>
    intro n instrs labels p h iap hiap
    simp only [parse_program_aux] at h
    injection h with h2
    subst h2
    exact .inl hiap
  | cons line rest ih =>
    intro n instrs labels p h iap hiap
    simp only [parse_program_aux] at h
    split at h
    next e heq => simp at h
    next labels2 heq =>
      split at h
      next e heq2 => simp at h
      next instr heq2 =>
        by_cases hs : isStructural instr = true
        · rw [if_pos hs] at h
          rcases ih _ _ _ _ h iap hiap with hm | ⟨hge, hlt, hpl⟩
          · exact .inl hm
          · refine .inr ⟨by omega, by simp only [List.length_cons]; omega, ?_⟩
            have hidx : iap.pos - n = (iap.pos - (n + 1)) + 1 := by omega
            rw [hidx, List.getD_cons_succ]
            exact hpl
        · rw [if_neg hs] at h
          rcases ih _ _ _ _ h iap hiap with hm | ⟨hge, hlt, hpl⟩
          · rcases List.mem_append.mp hm with hm2 | hm2
            · exact .inl hm2
            · simp only [List.mem_singleton] at hm2
              subst hm2
              refine .inr ⟨le_refl _, by simp, ?_⟩
              simp only [Nat.sub_self, List.getD_cons_zero]
              exact heq2
          · refine .inr ⟨by omega, by simp only [List.length_cons]; omega, ?_⟩
            have hidx : iap.pos - n = (iap.pos - (n + 1)) + 1 := by omega
            rw [hidx, List.getD_cons_succ]
            exact hpl

/-- Claim C2 (amended): each retained instruction's stored position is the
zero-based index of its ORIGINATING RAW LINE within the section body
(comment and blank lines included in the count, coming from
`enumerate()`), not its index among retained instructions only. -/
theorem C2_positions_are_raw_line_indices (buf : List Str) (p : Program)
    (h : parse_program buf = .ok p) :
    ∀ iap ∈ p.instrs, iap.pos < buf.length ∧
      parse_line (get_label (buf.getD iap.pos [])).1 = .ok iap.instr := by
  intro iap hiap
  rcases parse_program_aux_positions buf 0 [] [] p h iap hiap with hm | ⟨-, hlt, hpl⟩
  · simp at hm
  · rw [Nat.sub_zero] at hlt hpl
    exact ⟨hlt, hpl⟩

/-- Claim C2 counterexample: in a section body whose line 0 is a comment
and whose line 1 is `NOP`, the single retained instruction (the list's
element at index 0) carries position 1, the raw line index — not 0, the
index among retained instructions that the claim requires. -/
theorem C2_counterexample :
    parse_program ["# c".toList, "NOP".toList] =
      .ok { instrs := [{ instr := Instr.nop, pos := 1 }], labels := [] } := by
  rfl

/-- Witness for C2 at a concrete program. -/
theorem C2_witness :
    (0 : Nat) < 1 ∧
      parse_line (get_label (["NOP".toList].getD 0 [])).1 = .ok Instr.nop :=
  C2_positions_are_raw_line_indices ["NOP".toList]
    { instrs := [{ instr := Instr.nop, pos := 0 }], labels := [] } rfl
    { instr := Instr.nop, pos := 0 } (by simp)

theorem parse_program_aux_lookup_mono :
    ∀ (ls : List Str) (n : Nat) (instrs : List InstrAndPos) (labels : LabelMap)
      (p : Program) (k : Str) (v : Nat),
      labelsLookup labels k = some v →
      parse_program_aux n instrs labels ls = .ok p →
      labelsLookup p.labels k = some v := by
  intro ls
  induction ls with
  | nil =>
    intro n instrs labels p k v hk h
    simp only [parse_program_aux] at h
    injection h with h2
    subst h2
    exact hk
  | cons line rest ih =>
    intro n instrs labels p k v hk h
    simp only [parse_program_aux] at h
    split at h
    next e heq => simp at h
    next labels2 heq =>
      have hk2 : labelsLookup labels2 k = some v := by
        rcases registerLabel_ok _ _ _ _ heq with ⟨-, rfl⟩ | ⟨lab, -, -, rfl⟩
        · exact hk
        · exact labelsLookup_append_left _ _ _ _ hk
      split at h
      next e heq2 => simp at h
      next instr heq2 =>
        by_cases hs : isStructural instr = true
        · rw [if_pos hs] at h; exact ih _ _ _ _ _ _ hk2 h
        · rw [if_neg hs] at h; exact ih _ _ _ _ _ _ hk2 h

/-- Claim C6: a label found on a line is recorded in the program's label
table mapped to the current count of retained instructions (the index the
next real instruction will occupy); registering the same label twice
within one program is a hard error naming the label; the same label text
in two different sections is permitted, label scope being per program. -/
theorem C6_label_registration :
    (∀ (n : Nat) (instrs : List InstrAndPos) (labels : LabelMap) (line : Str)
        (rest : List Str) (lab : Str),
      (get_label line).2 = some lab →
      labelsLookup labels lab ≠ none →
      parse_program_aux n instrs labels (line :: rest) =
        .error (dupLabelMsg lab)) ∧
    (∀ (n : Nat) (instrs : List InstrAndPos) (labels : LabelMap) (line : Str)
        (rest : List Str) (lab : Str) (p : Program),
      (get_label line).2 = some lab →
      labelsLookup labels lab = none →
      parse_program_aux n instrs labels (line :: rest) = .ok p →
      labelsLookup p.labels lab = some instrs.length) ∧
    (parse_spec (["@0", "L:NOP", "", "@1", "L:NOP", "", "@2"].map String.toList) =
      .ok { programs := [
        { instrs := [{ instr := Instr.nop, pos := 0 }],
          labels := [("L".toList, 0)] },
        { instrs := [{ instr := Instr.nop, pos := 0 }],
          labels := [("L".toList, 0)] }] }) := by
  refine ⟨?_, ?_, by rfl⟩
  · intro n instrs labels line rest lab hlab hdup
    simp only [parse_program_aux, hlab, registerLabel]
    rw [if_pos hdup]
  · intro n instrs labels line rest lab p hlab hfresh h
    simp only [parse_program_aux] at h
    split at h
    next e heq => simp at h
    next labels2 heq =>
      rcases registerLabel_ok _ _ _ _ heq with ⟨hnone, rfl⟩ | ⟨lab2, hsome, hf2, rfl⟩
      · rw [hlab] at hnone; simp at hnone
      · rw [hlab] at hsome
        injection hsome with hlabeq
        subst hlabeq
        have hnew := labelsLookup_append_right labels lab instrs.length hfresh
        split at h
        next e heq2 => simp at h
        next instr heq2 =>
          by_cases hs : isStructural instr = true
          · rw [if_pos hs] at h
            exact parse_program_aux_lookup_mono _ _ _ _ _ _ _ hnew h
          · rw [if_neg hs] at h
            exact parse_program_aux_lookup_mono _ _ _ _ _ _ _ hnew h

/-- Witness for C6: registering `L` when `L` is already present fails. -/
theorem C6_witness :
    parse_program_aux 0 [] [("L".toList, 0)] ["L:NOP".toList] =
      .error (dupLabelMsg "L".toList) :=
  C6_label_registration.1 0 [] [("L".toList, 0)] "L:NOP".toList [] "L".toList
    rfl (by decide)

/-! ## The spec assembler -/

/-- Claim C5: section header numbers must be strictly increasing starting
at 0 (the first line must be the `@0` header) with no gaps; on a header
whose number differs from the expected next section number the parse fails
with an error naming the expected and found numbers; a header numbered
above 11 that does match the expected number fails with the
greater-than-maximum error. -/
theorem C5_section_sequencing :
    (∀ (first : Str) (rest : List Str), first ≠ "@0".toList →
      parse_spec (first :: rest) = .error (headerMsg first)) ∧
    (∀ (ns : Nat) (rp : List Str) (rps : List (List Str)) (rest : List Str)
        (tl : Str) (sec : Nat),
      parse_u8 tl = .ok sec → sec ≠ ns →
      parse_spec_loop ns rp rps (('@' :: tl) :: rest) =
        .error (expectingSectionMsg ns sec)) ∧
    (∀ (ns : Nat) (rp : List Str) (rps : List (List Str)) (rest : List Str)
        (tl : Str),
      parse_u8 tl = .ok ns → 11 < ns →
      parse_spec_loop ns rp rps (('@' :: tl) :: rest) =
        .error (sectionTooBigMsg ns)) := by
  refine ⟨?_, ?_, ?_⟩
  · intro first rest hne
    simp only [parse_spec]
    rw [if_neg hne]
  · intro ns rp rps rest tl sec hu8 hne
    simp only [parse_spec_loop, List.head?_cons, List.tail_cons, if_true, hu8]
    rw [if_pos hne]
  · intro ns rp rps rest tl hu8 hgt
    simp only [parse_spec_loop, List.head?_cons, List.tail_cons, if_true, hu8]
    rw [if_neg (by simp), if_pos hgt]

/-- Witness for C5 at concrete inputs. -/
theorem C5_witness :
    parse_spec ("@1".toList :: []) = .error (headerMsg "@1".toList) ∧
    parse_spec_loop 1 [] [] [('@' :: "2".toList)] =
      .error (expectingSectionMsg 1 2) :=
  ⟨C5_section_sequencing.1 "@1".toList [] (by decide),
    C5_section_sequencing.2.1 1 [] [] [] "2".toList 2 rfl (by decide)⟩

/-- Claim C10: every line after the first that begins with `@` is treated
as a section-header attempt — if the text after `@` does not parse as an
unsigned 8-bit number the whole parse fails with that numeric error — and
consequently no line beginning with `@` is ever kept in a section body. -/
theorem C10_header_lines_never_in_body :
    (∀ (ns : Nat) (rp : List Str) (rps : List (List Str)) (rest : List Str)
        (tl : Str) (e : Str),
      parse_u8 tl = .error e →
      parse_spec_loop ns rp rps (('@' :: tl) :: rest) = .error e) ∧
    (∀ (ls : List Str) (ns : Nat) (rp : List Str) (rps out : List (List Str)),
      parse_spec_loop ns rp rps ls = .ok out →
      (∀ l ∈ rp, l.head? ≠ some '@') →
      (∀ b ∈ rps, ∀ l ∈ b, l.head? ≠ some '@') →
      ∀ b ∈ out, ∀ l ∈ b, l.head? ≠ some '@') := by
  constructor
  · intro ns rp rps rest tl e he
    simp only [parse_spec_loop, List.head?_cons, List.tail_cons, if_true, he]
  · intro ls
    induction ls with
    | nil =>
      intro ns rp rps out h hrp hrps
      simp only [parse_spec_loop] at h
      injection h with h2
      subst h2
      exact hrps
    | cons line rest ih =>
      intro ns rp rps out h hrp hrps
      simp only [parse_spec_loop] at h
      by_cases hat : line.head? = some '@'
      · rw [if_pos hat] at h
        split at h
        next e heq => simp at h
        next sec heq =>
          split at h
          · simp at h
          · split at h
            · simp at h
            · split at h
              next heq2 => simp at h
              next lastLine heq2 =>
                split at h
                · simp at h
                · refine ih _ _ _ _ h (by simp) ?_
                  intro b hb
                  rcases List.mem_append.mp hb with hb | hb
                  · exact hrps b hb
                  · simp only [List.mem_singleton] at hb
                    subst hb
                    intro l hl
                    exact hrp l (List.dropLast_subset _ hl)
      · rw [if_neg hat] at h
        refine ih _ _ _ _ h ?_ hrps
        intro l hl
        rcases List.mem_append.mp hl with hl | hl
        · exact hrp l hl
        · simp only [List.mem_singleton] at hl
          subst hl
          exact hat

/-- Witness for C10: a line `@x` aborts the parse with the numeric error. -/
theorem C10_witness :
    parse_spec_loop 1 [] [] [('@' :: "x".toList)] =
      .error "invalid digit found in string".toList :=
  C10_header_lines_never_in_body.1 1 [] [] [] "x".toList
    "invalid digit found in string".toList rfl

/-! ## MOV parsing -/

theorem splitWsAux_no_ws :
    ∀ (s acc : Str), (∀ c ∈ acc, isWhitespace c = false) →
      ∀ t ∈ splitWsAux s acc, ∀ c ∈ t, isWhitespace c = false := by
  intro s
  induction s with
  | nil =>
    intro acc hacc t ht c hc
    simp only [splitWsAux] at ht
    by_cases ha : acc = []
    · rw [if_pos ha] at ht; simp at ht
    · rw [if_neg ha] at ht
      simp only [List.mem_singleton] at ht
      subst ht
      exact hacc c (List.mem_reverse.mp hc)
  | cons d rest ih =>
    intro acc hacc t ht c hc
    simp only [splitWsAux] at ht
    by_cases hd : isWhitespace d = true
    · rw [if_pos hd] at ht
      by_cases ha : acc = []
      · rw [if_pos ha] at ht
        exact ih [] (by simp) t ht c hc
      · rw [if_neg ha] at ht
        rcases List.mem_cons.mp ht with rfl | ht2
        · exact hacc c (List.mem_reverse.mp hc)
        · exact ih [] (by simp) t ht2 c hc
    · rw [if_neg hd] at ht
      refine ih (d :: acc) ?_ t ht c hc
      intro x hx
      rcases List.mem_cons.mp hx with rfl | hx2
      · simpa using hd
      · exact hacc x hx2

/-- Claim C8: a `MOV` source token must end with a literal comma character
(tokens produced by whitespace splitting contain no whitespace, so the
comma immediately follows the operand); `parse_mov` returns the move of
the parsed source to the parsed destination on success, and a missing
comma, a missing source token and a missing destination token each
produce a distinct error. -/
theorem C8_parse_mov_distinct_errors :
    (parse_mov [] = .error "invalid mov instruction without source".toList) ∧
    (∀ (w : Str) (rest : List Str), w.getLast? ≠ some ',' →
      parse_mov (w :: rest) =
        .error "invalid mov instruction with no comma".toList) ∧
    (∀ (w w2 : Str) (src : Source), eat_comma w = .ok w2 →
      parse_source w2 = .ok src →
      parse_mov [w] = .error "invalid mov instruction without dest".toList) ∧
    (∀ (w d : Str) (rest : List Str) (w2 : Str) (src : Source) (dst : Loc),
      eat_comma w = .ok w2 → parse_source w2 = .ok src → parse_loc d = .ok dst →
      parse_mov (w :: d :: rest) = .ok (.mov src dst)) ∧
    ("invalid mov instruction without source".toList ≠
        "invalid mov instruction with no comma".toList ∧
      "invalid mov instruction without source".toList ≠
        "invalid mov instruction without dest".toList ∧
      "invalid mov instruction with no comma".toList ≠
        "invalid mov instruction without dest".toList) ∧
    (∀ (l t : Str), t ∈ splitWs l → ∀ c ∈ t, isWhitespace c = false) := by
  refine ⟨rfl, ?_, ?_, ?_, by refine ⟨by decide, by decide, by decide⟩, ?_⟩
  · intro w rest hw
    have hec : eat_comma w = .error "invalid mov instruction with no comma".toList := by
      rw [eat_comma, if_neg hw]
    simp only [parse_mov, hec]
  · intro w w2 src hec hps
    simp only [parse_mov, hec, hps]
  · intro w d rest w2 src dst hec hps hpl
    simp only [parse_mov, hec, hps, hpl]
  · intro l t ht c hc
    exact splitWsAux_no_ws l [] (by simp) t ht c hc

/-- Witness for C8 at concrete token lists. -/
theorem C8_witness :
    parse_mov ["3,".toList, "ACC".toList] = .ok (.mov (.val 3) .acc) ∧
    parse_mov ["3".toList] =
      .error "invalid mov instruction with no comma".toList :=
  ⟨C8_parse_mov_distinct_errors.2.2.2.1 "3,".toList "ACC".toList [] "3".toList
      (.val 3) .acc rfl rfl rfl,
    C8_parse_mov_distinct_errors.2.1 "3".toList [] (by decide)⟩

/-! ## End-of-input behaviour of the spec assembler -/

/-- Claim C1 (code bug): at end of input the pending section buffer is
never appended — `raw_program` is only flushed when a NEXT header line is
seen — so the well-formed two-section document `@0, NOP, blank, @1, NOP,
blank` produces a Spec with exactly ONE program (section 0 only), not the
two programs the claim requires: the final section is silently dropped. -/
theorem C1_final_section_dropped :
    parse_spec (["@0", "NOP", "", "@1", "NOP", ""].map String.toList) =
      .ok { programs := [
        { instrs := [{ instr := Instr.nop, pos := 0 }],
          labels := [] }] } ∧
    ({ programs := [
        { instrs := [{ instr := Instr.nop, pos := 0 }],
          labels := [] }] } : Spec).programs.length = 1 :=
  ⟨rfl, rfl⟩

/-- Claim C4 (code bug): the blank-line terminator is only checked when a
next header line arrives; at end of document the final section — here
`@0, NOP` with NO terminating blank line — is dropped without any check,
and the parse SUCCEEDS (with zero programs) instead of failing with the
section-termination error the claim requires. -/
theorem C4_final_terminator_not_enforced :
    parse_spec (["@0", "NOP"].map String.toList) = .ok { programs := [] } :=
  rfl

/-! ## The unit tests of `src/main.rs`, replayed against the embedding -/

theorem test_parse_lit : parse_lit "3".toList = .ok 3 ∧
    ∃ e, parse_lit "f".toList = .error e := ⟨rfl, _, rfl⟩

theorem test_parse_loc : parse_loc "ACC".toList = .ok .acc ∧
    ∃ e, parse_loc "Aflkj".toList = .error e := ⟨rfl, _, rfl⟩

theorem test_parse_source : parse_source "ACC".toList = .ok (.loc .acc) ∧
    parse_source "3".toList = .ok (.val 3) ∧
    ∃ e, parse_source "Aflkj".toList = .error e := ⟨rfl, rfl, _, rfl⟩

theorem test_parse_mov :
    parse_mov (splitWs "3, ACC".toList) = .ok (.mov (.val 3) .acc) ∧
    parse_mov (splitWs "ACC, ACC".toList) = .ok (.mov (.loc .acc) .acc) ∧
    ∃ e, parse_mov (splitWs "f, ACC".toList) = .error e := ⟨rfl, rfl, _, rfl⟩

theorem test_parse_line :
    parse_line "MOV 3, ACC".toList = .ok (.mov (.val 3) .acc) ∧
    parse_line "SWP".toList = .ok .swp ∧
    parse_line "SUB 3".toList = .ok (.sub (.val 3)) ∧
    parse_line "SUB LEFT".toList = .ok (.sub (.loc .left)) ∧
    parse_line "JMP FOO".toList = .ok (.jmp "FOO".toList) :=
  ⟨rfl, rfl, rfl, rfl, rfl⟩

theorem test_get_label :
    get_label "label nop".toList = ("label nop".toList, none) ∧
    get_label "label:nop".toList = ("nop".toList, some "label".toList) ∧
    get_label "label: nop".toList = (" nop".toList, some "label".toList) ∧
    get_label "label : nop".toList = ("label : nop".toList, none) ∧
    get_label "label:3: nop".toList = ("3: nop".toList, some "label".toList) :=
  ⟨rfl, rfl, rfl, rfl, rfl⟩
